import Mathlib

/-!
Verification of the dependency-pinning metric module.

The module fetches a repository's package.json from the GitHub contents API,
merges its four dependency categories, classifies each version specifier
against the pattern (caret or tilde prefix optional, major dot minor,
optional dot patch where patch is digits or a star or the letter x),
and returns the pinned fraction, or null on any failure.

Modelling conventions of this development:
- JavaScript numbers are modelled as rationals; the divisions that occur
  (pinnedCount / total with small integer operands) carry over exactly.
- JavaScript objects holding dependencies are modelled as association lists
  from name to version string; object spread is modelled by `spread`.
- Exceptions are modelled with `Except String`, carrying the message;
  try/catch is a match on the `Except` value.
- The external collaborators (parseGitHubUrl, axios.get, base64 decode plus
  JSON.parse) are oracle function parameters, since their code is outside
  this module; the logger is modelled by returning a list of `LogEvent`s.
-/

namespace DependencyPinning

/-! ## Pinning classifier (source: isVersionPinned, lines 31-35)

The regex is anchored on both sides and its pieces are character-disjoint
(a digit is never a dot, caret, tilde, star or x), so a deterministic
maximal-munch matcher is equivalent to the regex; `matchPinned` is that
matcher and `specPinnedPattern` below is the declarative reading of the
pattern, proved equivalent. -/

/-- One step of the optional `(\^|~)?` prefix: drop a leading caret or tilde. -/
def dropCaret (cs : List Char) : List Char :=
  match cs with
  | [] => []
  | c :: rest => if c = '^' || c = '~' then rest else c :: rest

/-- Drop the maximal run of leading decimal digits. -/
def dropDigits : List Char → List Char
  | [] => []
  | c :: rest => if c.isDigit then dropDigits rest else c :: rest

/-- Consume `\d+` (one or more digits): `some rest` on success. -/
def digits1 (cs : List Char) : Option (List Char) :=
  match cs with
  | [] => none
  | c :: rest => if c.isDigit then some (dropDigits rest) else none

/-- `\d+$`: the whole remaining input is one or more digits. -/
def tailDigitsOk (cs : List Char) : Bool :=
  match digits1 cs with
  | some [] => true
  | _ => false

/-- Match the anchored tail `(\.\d+|\.\*|\.x)?$`. -/
def matchTail (cs : List Char) : Bool :=
  match cs with
  | [] => true
  | c :: rest => c = '.' && (rest = ['*'] || rest = ['x'] || tailDigitsOk rest)

/-- Match `\d+(\.\d+|\.\*|\.x)?$`: the minor component and the optional tail. -/
def matchMinorTail (rest2 : List Char) : Bool :=
  match digits1 rest2 with
  | some rest3 => matchTail rest3
  | none => false

/-- Match the full anchored pattern `^(\^|~)?\d+\.\d+(\.\d+|\.\*|\.x)?$`. -/
def matchPinned (cs : List Char) : Bool :=
  match digits1 (dropCaret cs) with
  | some [] => false
  | some (c :: rest2) => c = '.' && matchMinorTail rest2
  | none => false

/-- Whitespace trim from both ends, modelling `String.prototype.trim`. -/
def trimList (cs : List Char) : List Char :=
  ((cs.dropWhile Char.isWhitespace).reverse.dropWhile Char.isWhitespace).reverse

/-- Source `isVersionPinned` (lines 31-35): test the regex on the trimmed string. -/
def isVersionPinned (version : String) : Bool :=
  matchPinned (trimList version.data)

/-! ## Pinning score calculator (source: calculatePinningScore, lines 42-60) -/

/-- Source `calculatePinningScore`: 1.0 on the empty map, otherwise
pinned count over total count.  The JS iteration over `Object.keys` with
lookups is the traversal of the association list's entries. -/
def calculatePinningScore (dependencies : List (String × String)) : ℚ :=
  let total := dependencies.length
  if total = 0 then 1
  else ((dependencies.countP fun p => isVersionPinned p.2 : ℕ) : ℚ) / (total : ℚ)

/-! ## Object spread merge (source: lines 89-94) -/

/-- First-match lookup in an association list, as JS property access on the
object the list models. -/
def lookupVal (m : List (String × String)) (k : String) : Option String :=
  match m with
  | [] => none
  | p :: rest => if p.1 = k then some p.2 else lookupVal rest k

/-- Add one key-value pair with object-spread semantics: an existing key is
overwritten in place, a new key is appended. -/
def spreadInsert (m : List (String × String)) (kv : String × String) :
    List (String × String) :=
  if m.any fun p => p.1 = kv.1 then
    m.map fun p => if p.1 = kv.1 then (p.1, kv.2) else p
  else m ++ [kv]

/-- JS object spread of `b` onto `a`, keys of `b` overwriting those of `a`. -/
def spread (a b : List (String × String)) : List (String × String) :=
  b.foldl spreadInsert a

/-- The decoded package.json document: the four dependency categories, each
possibly absent.  Other fields of the document are irrelevant to the module. -/
structure PackageJson where
  dependencies : Option (List (String × String))
  devDependencies : Option (List (String × String))
  peerDependencies : Option (List (String × String))
  optionalDependencies : Option (List (String × String))

/-- Source lines 89-94: merge the four categories in this fixed order by
object spread; a spread of an absent (undefined) category contributes
nothing, as in JS. -/
def mergeAll (pkg : PackageJson) : List (String × String) :=
  spread (spread (spread (spread [] (pkg.dependencies.getD []))
    (pkg.devDependencies.getD [])) (pkg.peerDependencies.getD []))
    (pkg.optionalDependencies.getD [])

/-! ## Logger, request builder, fetcher, orchestrator (source: lines 13-127) -/

/-- One record emitted to the logger collaborator: `debug(msg, {owner, repo})`
from line 22, or `error(msg, detail)` where the detail is the caught
exception's message when one is passed. -/
inductive LogEvent where
  | debug (msg owner repo : String)
  | error (msg : String) (detail : Option String)
deriving DecidableEq

/-- The headers built on lines 18-21. -/
structure AuthHeaders where
  authorization : String
  accept : String
deriving DecidableEq

/-- The headers built on lines 18-21: an authorization value and an
API-version accept value. -/
def makeHeaders (token : String) : AuthHeaders :=
  ⟨"token " ++ token, "application/vnd.github.v3+json"⟩

/-- Source `get_axios_params` (lines 13-24).  The URL-parsing collaborator is
the oracle `parseGitHubUrl`; an error it raises propagates (the function has
no try/catch), hence the `Except` result. -/
def get_axios_params (parseGitHubUrl : String → Except String (String × String))
    (url token : String) :
    Except String ((String × String × AuthHeaders) × List LogEvent) :=
  match parseGitHubUrl url with
  | Except.error e => Except.error e
  | Except.ok (owner, repo) =>
      Except.ok ((owner, repo, makeHeaders token),
        [LogEvent.debug "Generated axios parameters" owner repo])

/-- The response body of the contents-API call: the optional `content` field
(base64 text when present).  Other fields are never read by the module. -/
structure HttpResponseData where
  content : Option String

/-- The URL built on line 75. -/
def packageJsonUrl (owner repo : String) : String :=
  "https://api.github.com/repos/" ++ owner ++ "/" ++ repo ++ "/contents/package.json"

/-- The try-block of the fetcher (lines 75-103): HTTP errors from the `axios.get`
oracle and decode/parse errors from the `parseManifest` oracle (base64 decode
followed by JSON.parse) propagate as `Except.error`; a missing or falsy
`content` field takes the line 102-103 path.  The truthiness test
`if (packageResponse.data.content)` fails both when the field is absent and
when it holds the empty string. -/
def fetchPinningBody (owner repo : String) (headers : AuthHeaders)
    (httpGet : String → AuthHeaders → Except String HttpResponseData)
    (parseManifest : String → Except String PackageJson) :
    Except String (Option ℚ × List LogEvent) :=
  match httpGet (packageJsonUrl owner repo) headers with
  | Except.error e => Except.error e
  | Except.ok resp =>
    match resp.content with
    | some s =>
      if s = "" then
        Except.ok (none,
          [LogEvent.error
            ("package.json content not found for " ++ owner ++ "/" ++ repo ++ ".") none])
      else
        match parseManifest s with
        | Except.error e => Except.error e
        | Except.ok pkg =>
            Except.ok (some (calculatePinningScore (mergeAll pkg)), [])
    | none =>
        Except.ok (none,
          [LogEvent.error
            ("package.json content not found for " ++ owner ++ "/" ++ repo ++ ".") none])

/-- Source `_getDependencyPinningFractionFromPackageJson` (lines 69-108):
the try-block above with its catch clause (lines 104-107), which logs the
failure message and returns null.  The result type is no longer `Except`:
no exception escapes this function. -/
def _getDependencyPinningFractionFromPackageJson (owner repo : String)
    (headers : AuthHeaders)
    (httpGet : String → AuthHeaders → Except String HttpResponseData)
    (parseManifest : String → Except String PackageJson) :
    Option ℚ × List LogEvent :=
  match fetchPinningBody owner repo headers httpGet parseManifest with
  | Except.ok r => r
  | Except.error e =>
      (none,
        [LogEvent.error
          ("Failed to fetch package.json for " ++ owner ++ "/" ++ repo ++ ":") (some e)])

/-- The try-block of the orchestrator (lines 121-122): parameter building may
raise, the inner fetch does not. -/
def getDependencyPinningFractionBody
    (parseGitHubUrl : String → Except String (String × String))
    (httpGet : String → AuthHeaders → Except String HttpResponseData)
    (parseManifest : String → Except String PackageJson)
    (url token : String) :
    Except String (Option ℚ × List LogEvent) :=
  match get_axios_params parseGitHubUrl url token with
  | Except.error e => Except.error e
  | Except.ok (params, log1) =>
      match params with
      | (owner, repo, headers) =>
        let r := _getDependencyPinningFractionFromPackageJson owner repo headers
          httpGet parseManifest
        Except.ok (r.1, log1 ++ r.2)

/-- Source `getDependencyPinningFraction` (lines 116-127): the try-block above
with its catch clause (lines 123-126).  The `Except` result type records that
an exception could in principle propagate to the caller; the theorem below
proves it never does. -/
def getDependencyPinningFraction
    (parseGitHubUrl : String → Except String (String × String))
    (httpGet : String → AuthHeaders → Except String HttpResponseData)
    (parseManifest : String → Except String PackageJson)
    (url token : String) :
    Except String (Option ℚ × List LogEvent) :=
  match getDependencyPinningFractionBody parseGitHubUrl httpGet parseManifest url token with
  | Except.ok r => Except.ok r
  | Except.error e =>
      Except.ok (none, [LogEvent.error ("Error processing " ++ url ++ ":") (some e)])

/-! ## Declarative reading of the pinning pattern

`specPinnedPattern` states the spec's description of the regex as an
existential decomposition of the character list, written from the spec's
words; the refinement theorem for the classifier proves it equivalent to the
matcher translated from the source. -/

/-- Every character of the list is a decimal digit. -/
def allDigits (l : List Char) : Prop := ∀ c ∈ l, c.isDigit = true

/-- The spec's optional suffix: nothing, or a dot followed by one-or-more
digits, a literal star, or a literal x. -/
def specTail (tail : List Char) : Prop :=
  tail = [] ∨
    ∃ t, tail = '.' :: t ∧ ((t ≠ [] ∧ allDigits t) ∨ t = ['*'] ∨ t = ['x'])

/-- The spec's pattern: optional leading caret or tilde, one or more digits,
a dot, one or more digits, then the optional suffix, covering the whole
string. -/
def specPinnedPattern (cs : List Char) : Prop :=
  ∃ pre maj minr tail,
    cs = pre ++ maj ++ '.' :: (minr ++ tail) ∧
    (pre = [] ∨ pre = ['^'] ∨ pre = ['~']) ∧
    maj ≠ [] ∧ allDigits maj ∧ minr ≠ [] ∧ allDigits minr ∧ specTail tail

/-- The list does not start with a digit (so a maximal digit run ends here). -/
def noDigitHead : List Char → Prop
  | [] => True
  | c :: _ => c.isDigit = false

/-! ## Lemmas about digit runs -/

lemma dropDigits_of_noDigitHead (cs : List Char) (h : noDigitHead cs) :
    dropDigits cs = cs := by
  cases cs with
  | nil => rfl
  | cons c t =>
    have hc : c.isDigit = false := h
    simp [dropDigits, hc]

lemma dropDigits_append (d rest : List Char) (hd : allDigits d)
    (hr : noDigitHead rest) : dropDigits (d ++ rest) = rest := by
  induction d with
  | nil => simpa using dropDigits_of_noDigitHead rest hr
  | cons c t ih =>
    have hc : c.isDigit = true := hd c (by simp)
    have ht : allDigits t := fun x hx => hd x (by simp [hx])
    simp [dropDigits, hc, ih ht]

lemma digits1_append (d rest : List Char) (hne : d ≠ []) (hd : allDigits d)
    (hr : noDigitHead rest) : digits1 (d ++ rest) = some rest := by
  cases d with
  | nil => exact absurd rfl hne
  | cons c t =>
    have hc : c.isDigit = true := hd c (by simp)
    have ht : allDigits t := fun x hx => hd x (by simp [hx])
    simp [digits1, hc, dropDigits_append t rest ht hr]

lemma dropDigits_decomp (cs : List Char) :
    ∃ d, allDigits d ∧ cs = d ++ dropDigits cs ∧ noDigitHead (dropDigits cs) := by
  induction cs with
  | nil => exact ⟨[], fun c hc => absurd hc (List.not_mem_nil c), rfl, trivial⟩
  | cons c t ih =>
    by_cases hc : c.isDigit
    · obtain ⟨d, hd, heq, hh⟩ := ih
      refine ⟨c :: d, ?_, ?_, ?_⟩
      · intro x hx
        rcases List.mem_cons.mp hx with rfl | hx
        · exact hc
        · exact hd x hx
      · simpa [dropDigits, hc] using congrArg (c :: ·) heq
      · simpa [dropDigits, hc] using hh
    · refine ⟨[], fun x hx => absurd hx (List.not_mem_nil x), ?_, ?_⟩
      · simp [dropDigits, hc]
      · simp only [dropDigits, hc, if_false]
        exact eq_false_of_ne_true (by simpa using hc)

lemma digits1_some (cs rest : List Char) (h : digits1 cs = some rest) :
    ∃ d, d ≠ [] ∧ allDigits d ∧ cs = d ++ rest ∧ noDigitHead rest := by
  cases cs with
  | nil => simp [digits1] at h
  | cons c t =>
    by_cases hc : c.isDigit
    · simp only [digits1, hc, if_true, Option.some.injEq] at h
      obtain ⟨d, hd, heq, hh⟩ := dropDigits_decomp t
      rw [h] at heq hh
      refine ⟨c :: d, by simp, ?_, by simpa using heq, hh⟩
      intro x hx
      rcases List.mem_cons.mp hx with rfl | hx
      · exact hc
      · exact hd x hx
    · simp [digits1, hc] at h

/-! ## Equivalence of the matcher with the declarative pattern -/

lemma tailDigitsOk_iff (cs : List Char) :
    tailDigitsOk cs = true ↔ digits1 cs = some [] := by
  unfold tailDigitsOk
  rcases h : digits1 cs with _ | r
  · simp
  · cases r with
    | nil => simp
    | cons a b => simp

lemma specTail_noDigitHead (tail : List Char) (h : specTail tail) :
    noDigitHead tail := by
  rcases h with rfl | ⟨t, rfl, _⟩
  · trivial
  · show ('.').isDigit = false
    decide

lemma matchTail_iff (cs : List Char) : matchTail cs = true ↔ specTail cs := by
  cases cs with
  | nil => simp [matchTail, specTail]
  | cons c rest =>
    simp only [matchTail, Bool.and_eq_true, Bool.or_eq_true, decide_eq_true_eq]
    constructor
    · rintro ⟨rfl, (hstar | hx) | hdig⟩
      · exact Or.inr ⟨rest, rfl, Or.inr (Or.inl hstar)⟩
      · exact Or.inr ⟨rest, rfl, Or.inr (Or.inr hx)⟩
      · obtain ⟨d, hne, hd, heq, _⟩ := digits1_some rest [] ((tailDigitsOk_iff rest).mp hdig)
        rw [List.append_nil] at heq
        subst heq
        exact Or.inr ⟨rest, rfl, Or.inl ⟨hne, hd⟩⟩
    · rintro (hnil | ⟨t, heq, hcase⟩)
      · exact absurd hnil (List.cons_ne_nil c rest)
      · injection heq with h1 h2
        subst h1
        subst h2
        refine ⟨rfl, ?_⟩
        rcases hcase with ⟨hne, hd⟩ | rfl | rfl
        · refine Or.inr ?_
          rw [tailDigitsOk_iff]
          simpa using digits1_append rest [] hne hd trivial
        · exact Or.inl (Or.inl rfl)
        · exact Or.inl (Or.inr rfl)

lemma digit_not_caret {c : Char} (hc : c.isDigit = true) :
    (c = '^' || c = '~') = false := by
  by_cases h1 : c = '^'
  · subst h1; exact absurd hc (by decide)
  · by_cases h2 : c = '~'
    · subst h2; exact absurd hc (by decide)
    · simp [h1, h2]

lemma matchMinorTail_none (rest2 : List Char) (h : digits1 rest2 = none) :
    matchMinorTail rest2 = false := by
  unfold matchMinorTail
  rw [h]

lemma matchMinorTail_some (rest2 rest3 : List Char) (h : digits1 rest2 = some rest3) :
    matchMinorTail rest2 = matchTail rest3 := by
  unfold matchMinorTail
  rw [h]

lemma matchPinned_none (cs : List Char) (h : digits1 (dropCaret cs) = none) :
    matchPinned cs = false := by
  unfold matchPinned
  rw [h]

lemma matchPinned_some_nil (cs : List Char) (h : digits1 (dropCaret cs) = some []) :
    matchPinned cs = false := by
  unfold matchPinned
  rw [h]

lemma matchPinned_some_cons (cs : List Char) (c2 : Char) (rest2 : List Char)
    (h : digits1 (dropCaret cs) = some (c2 :: rest2)) :
    matchPinned cs = (c2 = '.' && matchMinorTail rest2) := by
  unfold matchPinned
  rw [h]

lemma dropCaret_split (cs : List Char) :
    ∃ pre, (pre = [] ∨ pre = ['^'] ∨ pre = ['~']) ∧ cs = pre ++ dropCaret cs := by
  cases cs with
  | nil => exact ⟨[], Or.inl rfl, rfl⟩
  | cons c t =>
    by_cases hct : (c = '^' || c = '~') = true
    · rcases Bool.or_eq_true _ _ |>.mp hct with hh | hh
      · have hc : c = '^' := by simpa using hh
        subst hc
        exact ⟨['^'], Or.inr (Or.inl rfl), by simp [dropCaret]⟩
      · have hc : c = '~' := by simpa using hh
        subst hc
        exact ⟨['~'], Or.inr (Or.inr rfl), by simp [dropCaret]⟩
    · have hc : (c = '^' || c = '~') = false := by simpa using hct
      exact ⟨[], Or.inl rfl, by simp [dropCaret, hc]⟩

lemma matchPinned_iff (cs : List Char) :
    matchPinned cs = true ↔ specPinnedPattern cs := by
  constructor
  · intro h
    rcases h1 : digits1 (dropCaret cs) with _ | rest
    · rw [matchPinned_none cs h1] at h
      exact absurd h (by simp)
    · rcases rest with _ | ⟨c2, rest2⟩
      · rw [matchPinned_some_nil cs h1] at h
        exact absurd h (by simp)
      · rw [matchPinned_some_cons cs c2 rest2 h1] at h
        obtain ⟨hc2, hm⟩ := Bool.and_eq_true _ _ |>.mp h
        have hc2d : c2 = '.' := by simpa using hc2
        subst hc2d
        rcases h2 : digits1 rest2 with _ | rest3
        · rw [matchMinorTail_none rest2 h2] at hm
          exact absurd hm (by simp)
        · rw [matchMinorTail_some rest2 rest3 h2] at hm
          obtain ⟨maj, hmajne, hmaj, heqmaj, _⟩ := digits1_some _ _ h1
          obtain ⟨minr, hminne, hmin, heqmin, _⟩ := digits1_some _ _ h2
          have htail : specTail rest3 := (matchTail_iff rest3).mp hm
          obtain ⟨pre, hpre, heqpre⟩ := dropCaret_split cs
          refine ⟨pre, maj, minr, rest3, ?_, hpre, hmajne, hmaj, hminne, hmin, htail⟩
          calc cs = pre ++ dropCaret cs := heqpre
            _ = pre ++ (maj ++ '.' :: rest2) := by rw [heqmaj]
            _ = pre ++ (maj ++ '.' :: (minr ++ rest3)) := by rw [heqmin]
            _ = pre ++ maj ++ '.' :: (minr ++ rest3) :=
              (List.append_assoc pre maj ('.' :: (minr ++ rest3))).symm
  · rintro ⟨pre, maj, minr, tail, rfl, hpre, hmajne, hmaj, hminne, hmin, htail⟩
    have hdrop : dropCaret (pre ++ (maj ++ '.' :: (minr ++ tail))) =
        maj ++ '.' :: (minr ++ tail) := by
      rcases hpre with rfl | rfl | rfl
      · cases maj with
        | nil => exact absurd rfl hmajne
        | cons c t =>
          have hc : c.isDigit = true := hmaj c (by simp)
          simp [dropCaret, digit_not_caret hc]
      · simp [dropCaret]
      · simp [dropCaret]
    have h1 : digits1 (dropCaret (pre ++ (maj ++ '.' :: (minr ++ tail)))) =
        some ('.' :: (minr ++ tail)) := by
      rw [hdrop]
      exact digits1_append maj _ hmajne hmaj (by show ('.').isDigit = false; decide)
    have h2 : digits1 (minr ++ tail) = some tail :=
      digits1_append minr tail hminne hmin (specTail_noDigitHead tail htail)
    rw [List.append_assoc pre maj ('.' :: (minr ++ tail)),
      matchPinned_some_cons _ '.' (minr ++ tail) h1,
      matchMinorTail_some _ tail h2]
    have hmt : matchTail tail = true := (matchTail_iff tail).mpr htail
    simp [hmt]

/-! ## Lemmas about object-spread merging -/

lemma lookupVal_append (m1 m2 : List (String × String)) (k : String) :
    lookupVal (m1 ++ m2) k = (lookupVal m1 k).or (lookupVal m2 k) := by
  induction m1 with
  | nil => simp [lookupVal, Option.none_or]
  | cons p rest ih =>
    by_cases hp : p.1 = k
    · simp [lookupVal, hp, Option.or]
    · simp [lookupVal, hp, ih]

lemma lookupVal_not_mem (m : List (String × String)) (k : String)
    (h : k ∉ m.map Prod.fst) : lookupVal m k = none := by
  induction m with
  | nil => rfl
  | cons p rest ih =>
    have h1 : p.1 ≠ k := fun he => h (by simp [he])
    have h2 : k ∉ rest.map Prod.fst := fun hm => h (by simp [hm])
    simp [lookupVal, h1, ih h2]

lemma any_key_iff (m : List (String × String)) (k0 : String) :
    (m.any fun p => p.1 = k0) = true ↔ k0 ∈ m.map Prod.fst := by
  simp [List.any_eq_true, List.mem_map]

lemma lookupVal_map_replace_eq (m : List (String × String)) (k0 v0 : String)
    (hmem : k0 ∈ m.map Prod.fst) :
    lookupVal (m.map fun p => if p.1 = k0 then (p.1, v0) else p) k0 = some v0 := by
  induction m with
  | nil => simp at hmem
  | cons p rest ih =>
    by_cases hp : p.1 = k0
    · simp [lookupVal, hp]
    · have hmem2 : k0 ∈ rest.map Prod.fst := by
        rcases List.mem_map.mp hmem with ⟨q, hq, he⟩
        rcases List.mem_cons.mp hq with rfl | hq
        · exact absurd he hp
        · exact List.mem_map.mpr ⟨q, hq, he⟩
      simp [lookupVal, hp, ih hmem2]

lemma lookupVal_map_replace_ne (m : List (String × String)) (k0 v0 k : String)
    (hk : k ≠ k0) :
    lookupVal (m.map fun p => if p.1 = k0 then (p.1, v0) else p) k = lookupVal m k := by
  induction m with
  | nil => rfl
  | cons p rest ih =>
    by_cases hp : p.1 = k0
    · have hk0 : ¬ k0 = k := fun he => hk he.symm
      simp [lookupVal, hp, hk0, ih]
    · simp [lookupVal, hp, ih]

lemma lookupVal_spreadInsert (m : List (String × String)) (kv : String × String)
    (k : String) :
    lookupVal (spreadInsert m kv) k =
      if k = kv.1 then some kv.2 else lookupVal m k := by
  obtain ⟨k0, v0⟩ := kv
  unfold spreadInsert
  by_cases hmem : k0 ∈ m.map Prod.fst
  · rw [if_pos ((any_key_iff m k0).mpr hmem)]
    by_cases hk : k = k0
    · subst hk
      rw [if_pos rfl]
      exact lookupVal_map_replace_eq m k v0 hmem
    · rw [if_neg hk]
      exact lookupVal_map_replace_ne m k0 v0 k hk
  · rw [if_neg (fun h => hmem ((any_key_iff m k0).mp h)), lookupVal_append]
    by_cases hk : k = k0
    · subst hk
      rw [if_pos rfl, lookupVal_not_mem m k hmem]
      simp [lookupVal, Option.none_or]
    · have hk0 : k0 ≠ k := fun he => hk he.symm
      rw [if_neg hk]
      simp [lookupVal, hk0, Option.or_none]

lemma lookupVal_spread (a b : List (String × String)) (k : String)
    (hb : (b.map Prod.fst).Nodup) :
    lookupVal (spread a b) k = (lookupVal b k).or (lookupVal a k) := by
  induction b generalizing a with
  | nil => simp [spread, lookupVal, Option.none_or]
  | cons p rest ih =>
    have hb2 : (p.1 :: rest.map Prod.fst).Nodup := by
      rw [← List.map_cons]
      exact hb
    have hcons := List.nodup_cons.mp hb2
    have hp : p.1 ∉ rest.map Prod.fst := hcons.1
    have hrest : (rest.map Prod.fst).Nodup := hcons.2
    rw [show spread a (p :: rest) = spread (spreadInsert a p) rest from rfl,
      ih (spreadInsert a p) hrest, lookupVal_spreadInsert]
    by_cases hk : k = p.1
    · subst hk
      rw [if_pos rfl, lookupVal_not_mem rest p.1 hp]
      simp [lookupVal, Option.none_or, Option.or]
    · have hpk : p.1 ≠ k := fun he => hk he.symm
      rw [if_neg hk]
      simp [lookupVal, hpk]

/-! ## Case equations for the fetcher and the orchestrator -/

lemma fetchPinningBody_http_error (owner repo : String) (headers : AuthHeaders)
    (httpGet : String → AuthHeaders → Except String HttpResponseData)
    (parseManifest : String → Except String PackageJson) (e : String)
    (h : httpGet (packageJsonUrl owner repo) headers = Except.error e) :
    fetchPinningBody owner repo headers httpGet parseManifest = Except.error e := by
  unfold fetchPinningBody
  rw [h]

lemma fetchPinningBody_content_none (owner repo : String) (headers : AuthHeaders)
    (httpGet : String → AuthHeaders → Except String HttpResponseData)
    (parseManifest : String → Except String PackageJson) (resp : HttpResponseData)
    (hh : httpGet (packageJsonUrl owner repo) headers = Except.ok resp)
    (hc : resp.content = none) :
    fetchPinningBody owner repo headers httpGet parseManifest =
      Except.ok (none,
        [LogEvent.error
          ("package.json content not found for " ++ owner ++ "/" ++ repo ++ ".") none]) := by
  unfold fetchPinningBody
  simp only [hh]
  rw [hc]

lemma fetchPinningBody_content_empty (owner repo : String) (headers : AuthHeaders)
    (httpGet : String → AuthHeaders → Except String HttpResponseData)
    (parseManifest : String → Except String PackageJson) (resp : HttpResponseData)
    (hh : httpGet (packageJsonUrl owner repo) headers = Except.ok resp)
    (hc : resp.content = some "") :
    fetchPinningBody owner repo headers httpGet parseManifest =
      Except.ok (none,
        [LogEvent.error
          ("package.json content not found for " ++ owner ++ "/" ++ repo ++ ".") none]) := by
  unfold fetchPinningBody
  simp [hh, hc]

lemma fetchPinningBody_parse_error (owner repo : String) (headers : AuthHeaders)
    (httpGet : String → AuthHeaders → Except String HttpResponseData)
    (parseManifest : String → Except String PackageJson) (resp : HttpResponseData)
    (s e : String)
    (hh : httpGet (packageJsonUrl owner repo) headers = Except.ok resp)
    (hc : resp.content = some s) (hs : ¬ s = "")
    (hp : parseManifest s = Except.error e) :
    fetchPinningBody owner repo headers httpGet parseManifest = Except.error e := by
  unfold fetchPinningBody
  simp only [hh, hc]
  rw [if_neg hs, hp]

lemma fetchPinningBody_ok (owner repo : String) (headers : AuthHeaders)
    (httpGet : String → AuthHeaders → Except String HttpResponseData)
    (parseManifest : String → Except String PackageJson) (resp : HttpResponseData)
    (s : String) (pkg : PackageJson)
    (hh : httpGet (packageJsonUrl owner repo) headers = Except.ok resp)
    (hc : resp.content = some s) (hs : ¬ s = "")
    (hp : parseManifest s = Except.ok pkg) :
    fetchPinningBody owner repo headers httpGet parseManifest =
      Except.ok (some (calculatePinningScore (mergeAll pkg)), []) := by
  unfold fetchPinningBody
  simp only [hh, hc]
  rw [if_neg hs, hp]

lemma getFromPackageJson_of_body_error (owner repo : String) (headers : AuthHeaders)
    (httpGet : String → AuthHeaders → Except String HttpResponseData)
    (parseManifest : String → Except String PackageJson) (e : String)
    (h : fetchPinningBody owner repo headers httpGet parseManifest = Except.error e) :
    _getDependencyPinningFractionFromPackageJson owner repo headers httpGet parseManifest =
      (none,
        [LogEvent.error
          ("Failed to fetch package.json for " ++ owner ++ "/" ++ repo ++ ":") (some e)]) := by
  unfold _getDependencyPinningFractionFromPackageJson
  rw [h]

lemma getFromPackageJson_of_body_ok (owner repo : String) (headers : AuthHeaders)
    (httpGet : String → AuthHeaders → Except String HttpResponseData)
    (parseManifest : String → Except String PackageJson) (r : Option ℚ × List LogEvent)
    (h : fetchPinningBody owner repo headers httpGet parseManifest = Except.ok r) :
    _getDependencyPinningFractionFromPackageJson owner repo headers httpGet parseManifest
      = r := by
  unfold _getDependencyPinningFractionFromPackageJson
  rw [h]

lemma body_of_parse_error
    (parseGitHubUrl : String → Except String (String × String))
    (httpGet : String → AuthHeaders → Except String HttpResponseData)
    (parseManifest : String → Except String PackageJson) (url token e : String)
    (h : parseGitHubUrl url = Except.error e) :
    getDependencyPinningFractionBody parseGitHubUrl httpGet parseManifest url token =
      Except.error e := by
  unfold getDependencyPinningFractionBody get_axios_params
  rw [h]

lemma body_of_parse_ok
    (parseGitHubUrl : String → Except String (String × String))
    (httpGet : String → AuthHeaders → Except String HttpResponseData)
    (parseManifest : String → Except String PackageJson) (url token owner repo : String)
    (h : parseGitHubUrl url = Except.ok (owner, repo)) :
    getDependencyPinningFractionBody parseGitHubUrl httpGet parseManifest url token =
      Except.ok
        ((_getDependencyPinningFractionFromPackageJson owner repo (makeHeaders token)
            httpGet parseManifest).1,
          [LogEvent.debug "Generated axios parameters" owner repo] ++
            (_getDependencyPinningFractionFromPackageJson owner repo (makeHeaders token)
              httpGet parseManifest).2) := by
  unfold getDependencyPinningFractionBody get_axios_params
  rw [h]

lemma orchestrator_catch_error
    (parseGitHubUrl : String → Except String (String × String))
    (httpGet : String → AuthHeaders → Except String HttpResponseData)
    (parseManifest : String → Except String PackageJson) (url token e : String)
    (h : getDependencyPinningFractionBody parseGitHubUrl httpGet parseManifest url token =
      Except.error e) :
    getDependencyPinningFraction parseGitHubUrl httpGet parseManifest url token =
      Except.ok (none, [LogEvent.error ("Error processing " ++ url ++ ":") (some e)]) := by
  unfold getDependencyPinningFraction
  rw [h]

lemma orchestrator_catch_ok
    (parseGitHubUrl : String → Except String (String × String))
    (httpGet : String → AuthHeaders → Except String HttpResponseData)
    (parseManifest : String → Except String PackageJson) (url token : String)
    (r : Option ℚ × List LogEvent)
    (h : getDependencyPinningFractionBody parseGitHubUrl httpGet parseManifest url token =
      Except.ok r) :
    getDependencyPinningFraction parseGitHubUrl httpGet parseManifest url token =
      Except.ok r := by
  unfold getDependencyPinningFraction
  rw [h]

/-! ## Inversion: a returned score always came from `calculatePinningScore` -/

lemma fetch_fst_some_inv (owner repo : String) (headers : AuthHeaders)
    (httpGet : String → AuthHeaders → Except String HttpResponseData)
    (parseManifest : String → Except String PackageJson) (q : ℚ)
    (h : (_getDependencyPinningFractionFromPackageJson owner repo headers httpGet
      parseManifest).1 = some q) :
    ∃ pkg, q = calculatePinningScore (mergeAll pkg) := by
  cases hhttp : httpGet (packageJsonUrl owner repo) headers with
  | error e =>
    rw [getFromPackageJson_of_body_error owner repo headers httpGet parseManifest e
      (fetchPinningBody_http_error owner repo headers httpGet parseManifest e hhttp)] at h
    simp at h
  | ok resp =>
    cases hcont : resp.content with
    | none =>
      rw [getFromPackageJson_of_body_ok owner repo headers httpGet parseManifest _
        (fetchPinningBody_content_none owner repo headers httpGet parseManifest resp
          hhttp hcont)] at h
      simp at h
    | some s =>
      by_cases hs : s = ""
      · subst hs
        rw [getFromPackageJson_of_body_ok owner repo headers httpGet parseManifest _
          (fetchPinningBody_content_empty owner repo headers httpGet parseManifest resp
            hhttp hcont)] at h
        simp at h
      · cases hparse : parseManifest s with
        | error e =>
          rw [getFromPackageJson_of_body_error owner repo headers httpGet parseManifest e
            (fetchPinningBody_parse_error owner repo headers httpGet parseManifest resp
              s e hhttp hcont hs hparse)] at h
          simp at h
        | ok pkg =>
          rw [getFromPackageJson_of_body_ok owner repo headers httpGet parseManifest _
            (fetchPinningBody_ok owner repo headers httpGet parseManifest resp s pkg
              hhttp hcont hs hparse)] at h
          exact ⟨pkg, (Option.some.inj h).symm⟩

lemma orchestrator_some_inv
    (parseGitHubUrl : String → Except String (String × String))
    (httpGet : String → AuthHeaders → Except String HttpResponseData)
    (parseManifest : String → Except String PackageJson) (url token : String)
    (q : ℚ) (log : List LogEvent)
    (h : getDependencyPinningFraction parseGitHubUrl httpGet parseManifest url token =
      Except.ok (some q, log)) :
    ∃ pkg, q = calculatePinningScore (mergeAll pkg) := by
  cases hb : getDependencyPinningFractionBody parseGitHubUrl httpGet parseManifest
      url token with
  | error e =>
    rw [orchestrator_catch_error parseGitHubUrl httpGet parseManifest url token e hb] at h
    simp at h
  | ok r =>
    rw [orchestrator_catch_ok parseGitHubUrl httpGet parseManifest url token r hb] at h
    have hr : r = (some q, log) := by simpa using h
    subst hr
    cases hp : parseGitHubUrl url with
    | error e =>
      rw [body_of_parse_error parseGitHubUrl httpGet parseManifest url token e hp] at hb
      simp at hb
    | ok pr =>
      obtain ⟨owner, repo⟩ := pr
      rw [body_of_parse_ok parseGitHubUrl httpGet parseManifest url token owner repo hp]
        at hb
      have hfst : (_getDependencyPinningFractionFromPackageJson owner repo
          (makeHeaders token) httpGet parseManifest).1 = some q := by
        have hpair := Except.ok.inj hb
        exact congrArg Prod.fst hpair
      exact fetch_fst_some_inv owner repo (makeHeaders token) httpGet parseManifest q hfst

/-! ## Claim theorems -/

/-- C1: the top-level orchestrator never raises: whatever the URL parser, the
HTTP client and the manifest decoder do, `getDependencyPinningFraction`
evaluates to `Except.ok` carrying a score or the absent value, never to
`Except.error`. -/
theorem getDependencyPinningFraction_never_raises
    (parseGitHubUrl : String → Except String (String × String))
    (httpGet : String → AuthHeaders → Except String HttpResponseData)
    (parseManifest : String → Except String PackageJson)
    (url token : String) :
    ∃ r : Option ℚ × List LogEvent,
      getDependencyPinningFraction parseGitHubUrl httpGet parseManifest url token =
        Except.ok r := by
  cases h : getDependencyPinningFractionBody parseGitHubUrl httpGet parseManifest
      url token with
  | error e =>
    exact ⟨_, orchestrator_catch_error parseGitHubUrl httpGet parseManifest url token e h⟩
  | ok r =>
    exact ⟨r, orchestrator_catch_ok parseGitHubUrl httpGet parseManifest url token r h⟩

/-- C2: `isVersionPinned` accepts exactly the whitespace-trimmed strings of
shape optional caret or tilde, digits, dot, digits, optionally dot and
(digits or star or x); together with the spec's positive and negative
examples. -/
theorem isVersionPinned_pattern :
    (∀ s : String, isVersionPinned s = true ↔ specPinnedPattern (trimList s.data)) ∧
    isVersionPinned "2.3" = true ∧ isVersionPinned "^2.3.4" = true ∧
    isVersionPinned "~2.3.x" = true ∧ isVersionPinned "2.3.*" = true ∧
    isVersionPinned "*" = false ∧ isVersionPinned "latest" = false ∧
    isVersionPinned ">=1.0.0" = false ∧ isVersionPinned "1" = false ∧
    isVersionPinned "1.2.3-beta" = false :=
  ⟨fun s => matchPinned_iff (trimList s.data),
    by decide, by decide, by decide, by decide, by decide, by decide, by decide,
    by decide, by decide⟩

/-- C3: the score of the empty dependency map is exactly 1. -/
theorem calculatePinningScore_empty : calculatePinningScore [] = 1 := rfl

/-- C4: on a non-empty map with `n` entries of which `k` are classified as
pinned, the score is the exact quotient `k / n`. -/
theorem calculatePinningScore_fraction (deps : List (String × String)) (n k : ℕ)
    (hn : deps.length = n) (hk : (deps.countP fun p => isVersionPinned p.2) = k)
    (h0 : n ≠ 0) :
    calculatePinningScore deps = (k : ℚ) / (n : ℚ) := by
  subst hn hk
  unfold calculatePinningScore
  rw [if_neg h0]

/-- C4 witness: the spec's example map with two entries, one pinned, scores
one half. -/
theorem calculatePinningScore_fraction_witness :
    [("a", "1.2.3"), ("b", "*")].length = 2 ∧
    ([("a", "1.2.3"), ("b", "*")].countP fun p => isVersionPinned p.2) = 1 ∧
    (2 : ℕ) ≠ 0 ∧
    calculatePinningScore [("a", "1.2.3"), ("b", "*")] = (1 : ℚ) / (2 : ℚ) :=
  ⟨by decide, by decide, by decide,
    calculatePinningScore_fraction [("a", "1.2.3"), ("b", "*")] 2 1
      (by decide) (by decide) (by decide)⟩

/-- C5: every score is in the closed unit interval, and so is every
non-absent result of the orchestrator. -/
theorem pinningScore_in_unit_interval :
    (∀ deps : List (String × String),
      0 ≤ calculatePinningScore deps ∧ calculatePinningScore deps ≤ 1) ∧
    (∀ (parseGitHubUrl : String → Except String (String × String))
      (httpGet : String → AuthHeaders → Except String HttpResponseData)
      (parseManifest : String → Except String PackageJson)
      (url token : String) (q : ℚ) (log : List LogEvent),
      getDependencyPinningFraction parseGitHubUrl httpGet parseManifest url token =
        Except.ok (some q, log) → 0 ≤ q ∧ q ≤ 1) := by
  have hbounds : ∀ deps : List (String × String),
      0 ≤ calculatePinningScore deps ∧ calculatePinningScore deps ≤ 1 := by
    intro deps
    unfold calculatePinningScore
    by_cases h : deps.length = 0
    · rw [if_pos h]
      exact ⟨zero_le_one, le_refl 1⟩
    · rw [if_neg h]
      have hlen : 0 < ((deps.length : ℕ) : ℚ) := by
        exact_mod_cast Nat.pos_of_ne_zero h
      constructor
      · exact div_nonneg (by positivity) (le_of_lt hlen)
      · rw [div_le_one hlen]
        exact_mod_cast List.countP_le_length (fun p : String × String => isVersionPinned p.2)
  refine ⟨hbounds, ?_⟩
  intro parseGitHubUrl httpGet parseManifest url token q log h
  obtain ⟨pkg, rfl⟩ := orchestrator_some_inv parseGitHubUrl httpGet parseManifest
    url token q log h
  exact hbounds (mergeAll pkg)

/-- C5 witness: an oracle set under which the orchestrator returns the score
1, which the theorem places in the unit interval. -/
theorem pinningScore_in_unit_interval_witness :
    getDependencyPinningFraction (fun _ => Except.ok ("o", "r"))
        (fun _ _ => Except.ok ⟨some "x"⟩)
        (fun _ => Except.ok ⟨none, none, none, none⟩) "u" "t" =
      Except.ok (some 1, [LogEvent.debug "Generated axios parameters" "o" "r"]) ∧
    (0 ≤ (1 : ℚ) ∧ (1 : ℚ) ≤ 1) :=
  ⟨rfl,
    pinningScore_in_unit_interval.2 (fun _ => Except.ok ("o", "r"))
      (fun _ _ => Except.ok ⟨some "x"⟩)
      (fun _ => Except.ok ⟨none, none, none, none⟩) "u" "t" 1
      [LogEvent.debug "Generated axios parameters" "o" "r"] rfl⟩

/-- C6: looking up any key in the merged map gives the value from the latest
category that declares it, in the fixed order dependencies, devDependencies,
peerDependencies, optionalDependencies; absent categories contribute
nothing. -/
theorem mergeAll_lookup (pkg : PackageJson) (k : String)
    (h1 : ((pkg.dependencies.getD []).map Prod.fst).Nodup)
    (h2 : ((pkg.devDependencies.getD []).map Prod.fst).Nodup)
    (h3 : ((pkg.peerDependencies.getD []).map Prod.fst).Nodup)
    (h4 : ((pkg.optionalDependencies.getD []).map Prod.fst).Nodup) :
    lookupVal (mergeAll pkg) k =
      (lookupVal (pkg.optionalDependencies.getD []) k).or
        ((lookupVal (pkg.peerDependencies.getD []) k).or
          ((lookupVal (pkg.devDependencies.getD []) k).or
            (lookupVal (pkg.dependencies.getD []) k))) := by
  unfold mergeAll
  rw [lookupVal_spread _ _ k h4, lookupVal_spread _ _ k h3,
    lookupVal_spread _ _ k h2, lookupVal_spread _ _ k h1]
  simp [lookupVal, Option.or_none]

/-- C6 witness: with `dependencies = x mapsto 1.0.0` and
`devDependencies = x mapsto star`, the merged map sends x to star. -/
theorem mergeAll_lookup_witness :
    lookupVal (mergeAll ⟨some [("x", "1.0.0")], some [("x", "*")], none, none⟩) "x" =
      some "*" :=
  (mergeAll_lookup ⟨some [("x", "1.0.0")], some [("x", "*")], none, none⟩ "x"
    (by decide) (by decide) (by decide) (by decide)).trans rfl

/-- C7: the score does not depend on the order of the entries: permuted
dependency maps score identically. -/
theorem calculatePinningScore_perm (l1 l2 : List (String × String))
    (h : l1.Perm l2) : calculatePinningScore l1 = calculatePinningScore l2 := by
  unfold calculatePinningScore
  rw [h.length_eq, h.countP_eq]

/-- C7 witness: the two orders of the spec's two-entry example map score the
same. -/
theorem calculatePinningScore_perm_witness :
    [("a", "1.2.3"), ("b", "*")].Perm [("b", "*"), ("a", "1.2.3")] ∧
    calculatePinningScore [("a", "1.2.3"), ("b", "*")] =
      calculatePinningScore [("b", "*"), ("a", "1.2.3")] :=
  ⟨List.Perm.swap ("b", "*") ("a", "1.2.3") [],
    calculatePinningScore_perm _ _ (List.Perm.swap ("b", "*") ("a", "1.2.3") [])⟩

/-- C8: when the response carries no `content` field, the fetcher returns
the absent value together with exactly one error log record naming owner and
repo, and raises nothing. -/
theorem fetch_missing_content (owner repo : String) (headers : AuthHeaders)
    (httpGet : String → AuthHeaders → Except String HttpResponseData)
    (parseManifest : String → Except String PackageJson) (resp : HttpResponseData)
    (hhttp : httpGet (packageJsonUrl owner repo) headers = Except.ok resp)
    (hcont : resp.content = none) :
    _getDependencyPinningFractionFromPackageJson owner repo headers httpGet
      parseManifest =
      (none,
        [LogEvent.error
          ("package.json content not found for " ++ owner ++ "/" ++ repo ++ ".")
          none]) :=
  getFromPackageJson_of_body_ok owner repo headers httpGet parseManifest _
    (fetchPinningBody_content_none owner repo headers httpGet parseManifest resp
      hhttp hcont)

/-- C8 witness: a concrete response without `content` yields the absent value
and the single error log. -/
theorem fetch_missing_content_witness :
    _getDependencyPinningFractionFromPackageJson "o" "r" (makeHeaders "t")
      (fun _ _ => Except.ok ⟨none⟩) (fun _ => Except.ok ⟨none, none, none, none⟩) =
      (none,
        [LogEvent.error
          ("package.json content not found for " ++ "o" ++ "/" ++ "r" ++ ".")
          none]) :=
  fetch_missing_content "o" "r" (makeHeaders "t") (fun _ _ => Except.ok ⟨none⟩)
    (fun _ => Except.ok ⟨none, none, none, none⟩) ⟨none⟩ rfl rfl

/-- C9: when the HTTP call fails, or the decode or parse of a non-empty
`content` fails, the fetcher returns the absent value together with exactly
one error log record carrying the failure message; no exception escapes. -/
theorem fetch_failure_collapses (owner repo : String) (headers : AuthHeaders)
    (httpGet : String → AuthHeaders → Except String HttpResponseData)
    (parseManifest : String → Except String PackageJson) :
    (∀ e, httpGet (packageJsonUrl owner repo) headers = Except.error e →
      _getDependencyPinningFractionFromPackageJson owner repo headers httpGet
        parseManifest =
        (none,
          [LogEvent.error
            ("Failed to fetch package.json for " ++ owner ++ "/" ++ repo ++ ":")
            (some e)])) ∧
    (∀ resp s e, httpGet (packageJsonUrl owner repo) headers = Except.ok resp →
      resp.content = some s → ¬ s = "" → parseManifest s = Except.error e →
      _getDependencyPinningFractionFromPackageJson owner repo headers httpGet
        parseManifest =
        (none,
          [LogEvent.error
            ("Failed to fetch package.json for " ++ owner ++ "/" ++ repo ++ ":")
            (some e)])) :=
  ⟨fun e he =>
    getFromPackageJson_of_body_error owner repo headers httpGet parseManifest e
      (fetchPinningBody_http_error owner repo headers httpGet parseManifest e he),
  fun resp s e hh hc hs hp =>
    getFromPackageJson_of_body_error owner repo headers httpGet parseManifest e
      (fetchPinningBody_parse_error owner repo headers httpGet parseManifest resp
        s e hh hc hs hp)⟩

/-- C9 witness: a concrete failing HTTP call yields the absent value and one
error log carrying the failure message. -/
theorem fetch_failure_collapses_witness :
    _getDependencyPinningFractionFromPackageJson "o" "r" (makeHeaders "t")
      (fun _ _ => Except.error "boom")
      (fun _ => Except.ok ⟨none, none, none, none⟩) =
      (none,
        [LogEvent.error
          ("Failed to fetch package.json for " ++ "o" ++ "/" ++ "r" ++ ":")
          (some "boom")]) :=
  (fetch_failure_collapses "o" "r" (makeHeaders "t")
    (fun _ _ => Except.error "boom")
    (fun _ => Except.ok ⟨none, none, none, none⟩)).1 "boom" rfl

/-- C10: a `content` field holding the empty string is treated like a missing
field: the truthiness test sends the fetcher down the content-not-found path,
returning the absent value with the content-not-found error log. -/
theorem fetch_empty_content_truthiness (owner repo : String) (headers : AuthHeaders)
    (httpGet : String → AuthHeaders → Except String HttpResponseData)
    (parseManifest : String → Except String PackageJson) (resp : HttpResponseData)
    (hhttp : httpGet (packageJsonUrl owner repo) headers = Except.ok resp)
    (hcont : resp.content = some "") :
    _getDependencyPinningFractionFromPackageJson owner repo headers httpGet
      parseManifest =
      (none,
        [LogEvent.error
          ("package.json content not found for " ++ owner ++ "/" ++ repo ++ ".")
          none]) :=
  getFromPackageJson_of_body_ok owner repo headers httpGet parseManifest _
    (fetchPinningBody_content_empty owner repo headers httpGet parseManifest resp
      hhttp hcont)

/-- C10 witness: a concrete response whose `content` is the empty string
takes the content-not-found path even though the field is present. -/
theorem fetch_empty_content_truthiness_witness :
    _getDependencyPinningFractionFromPackageJson "o" "r" (makeHeaders "t")
      (fun _ _ => Except.ok ⟨some ""⟩) (fun _ => Except.ok ⟨none, none, none, none⟩) =
      (none,
        [LogEvent.error
          ("package.json content not found for " ++ "o" ++ "/" ++ "r" ++ ".")
          none]) :=
  fetch_empty_content_truthiness "o" "r" (makeHeaders "t")
    (fun _ _ => Except.ok ⟨some ""⟩)
    (fun _ => Except.ok ⟨none, none, none, none⟩) ⟨some ""⟩ rfl rfl

end DependencyPinning
